import Mathlib

/-!
Verification development for the DiskANN streaming driver
(`build_incremental_index`, `insert_next_batch`, `delete_and_consolidate`,
`load_aligned_bin_part`) and the utility routines in `include/utils.h`
(`ROUND_UP`, `load_truthset`, `prepare_base_for_inner_products`).

The embedding is shallow: the driver's insert/delete loop is modelled as a
pure state transformer over the set of inserted and lazy-deleted tags, the
consolidate retry loop as a function over the sequence of status codes
returned by successive `consolidate_deletes` calls, and the file loaders as
functions of the header fields and payload.
-/

namespace DiskANN

/-- The ROUND_UP macro from include/utils.h line 51:
round x up to the nearest multiple of y. -/
def ROUND_UP (x y : ℕ) : ℕ := (x / y + if x % y ≠ 0 then 1 else 0) * y

/-- Error text of the fatal throw at part_000 line 234. -/
def errNumPoints : String :=
  "num_points is less than max_points_to_insert"

/-- Error text of the fatal throw at part_000 line 239. -/
def errWindow : String :=
  "ERROR: max_points_to_insert is less than active_window + consolidate_interval"

/-- Error text of the fatal throw at part_000 line 244. -/
def errInterval : String :=
  "ERROR: consolidate_interval is too small"

/-- Error text of the throw at part_000 line 51 and utils.h line 414. -/
def errFileSize : String :=
  "Error. File size mismatch."

/-- Error text of the throw at part_000 line 60. -/
def errNotEnoughPoints : String :=
  "Error. Not enough points in file."

/-- Tag assigned by insert_next_batch to the point with linear index j in the
source file: insert_point is called with tag 1 + j (part_000 lines 102 and 106). -/
def insertionTag (j : ℕ) : ℕ := 1 + j

/-- The set of tag values carried by the points whose linear indices lie in the
half-open index range [a, b): these are the values 1 + i for a ≤ i < b,
i.e. the integer interval [a+1, b+1). -/
def batchTags (a b : ℕ) : Finset ℕ := Finset.Ico (a + 1) (b + 1)

/-- Tags of all points with linear index below n, i.e. tag values 1..n. -/
def upTags (n : ℕ) : Finset ℕ := Finset.Ico 1 (n + 1)

/-- Abstract state of the streaming driver: which tags have been passed to
insert_point and which have been passed to lazy_delete. -/
structure DriverState where
  inserted : Finset ℕ
  deleted : Finset ℕ
  deriving DecidableEq

/-- One iteration of the main loop of build_incremental_index
(part_000 lines 282-309), labels disabled: insert the batch of points with
indices [start, min (start + C) N) (tags via insertionTag), and, when
start is at least W + C, lazy-delete the tags of indices
[start - W - C, start - W) (lines 296-302 and delete_and_consolidate
lines 135-136, which deletes tag 1 + i for each index i). -/
def streamIter (N W C start : ℕ) (s : DriverState) : DriverState :=
  let e := min (start + C) N
  let s1 : DriverState := ⟨s.inserted ∪ batchTags start e, s.deleted⟩
  if W + C ≤ start then
    ⟨s1.inserted, s1.deleted ∪ batchTags (start - W - C) (start - W)⟩
  else
    s1

/-- The main loop of build_incremental_index (part_000 lines 282-309):
for (start = W; start + C <= N; start += C).  Fuel-indexed structural
recursion; the driver's loop terminates in at most N iterations whenever
C > 0 (each iteration advances start by C), and the callers below supply
fuel N + 1, so the fuel never runs out in the cases the theorems speak
about.  (With C = 0 the C++ loop would not terminate at all.) -/
def streamLoop (N W C : ℕ) : ℕ → ℕ → DriverState → DriverState
  | 0, _, s => s
  | fuel + 1, start, s =>
    if start + C ≤ N then streamLoop N W C fuel (start + C) (streamIter N W C start s) else s

/-- Result of a completed run of build_incremental_index (labels disabled):
the effective max_points_to_insert, the slot capacity the Index was
constructed with, and the final inserted/deleted tag sets. -/
structure DriverRun where
  max_points : ℕ
  capacity : ℕ
  inserted : Finset ℕ
  deleted : Finset ℕ
  deriving DecidableEq

/-- The substitution at part_000 lines 228-231: when max_points_to_insert is
0 the driver uses num_points instead. -/
def effectiveMaxPoints (num_points max_points_to_insert : ℕ) : ℕ :=
  if max_points_to_insert = 0 then num_points else max_points_to_insert

/-- build_incremental_index (part_000 lines 179-319), labels disabled, at the
tag-set level of abstraction.  Mirrors the source order: substitute
max_points_to_insert := num_points when it is 0 (lines 228-231); the three
precondition checks, each a fatal throw (lines 233-244); construction of the
Index with capacity active_window + 4 * consolidate_interval (line 248);
the initial batch of indices [0, active_window) (lines 276-280); then the
insert/delete loop (lines 282-309). -/
def build_incremental_index (num_points max_points_to_insert active_window consolidate_interval : ℕ) :
    Except String DriverRun :=
  let m := effectiveMaxPoints num_points max_points_to_insert
  if num_points < m then
    Except.error errNumPoints
  else if m < active_window + consolidate_interval then
    Except.error errWindow
  else if consolidate_interval < m / 1000 then
    Except.error errInterval
  else
    let final := streamLoop m active_window consolidate_interval (m + 1) active_window
      ⟨batchTags 0 active_window, ∅⟩
    Except.ok
      { max_points := m
        capacity := active_window + 4 * consolidate_interval
        inserted := final.inserted
        deleted := final.deleted }

/-- The tags that are live (inserted and not lazy-deleted) when
build_incremental_index finishes its insert/delete loop; the empty set when
the preconditions make the driver throw instead. -/
def driverLiveTags (N W C : ℕ) : Finset ℕ :=
  match build_incremental_index N N W C with
  | Except.ok r => r.inserted \ r.deleted
  | Except.error _ => ∅

/-- Status codes of diskann::consolidation_report as discriminated by
delete_and_consolidate (part_000 lines 140-158): SUCCESS ends the retry
loop, LOCK_FAIL and INCONSISTENT_COUNT_ERROR are reported and retried, and
any other status reaches the final else branch. -/
inductive ConsStatus where
  | SUCCESS
  | LOCK_FAIL
  | INCONSISTENT_COUNT_ERROR
  | OTHER
  deriving DecidableEq

/-- How a run of the retry loop in delete_and_consolidate ends. -/
inductive LoopOutcome where
  /-- consolidate_deletes returned SUCCESS and the loop exited normally. -/
  | success
  /-- an unrecognized status reached the else branch, which calls exit(-1). -/
  | aborted
  /-- the modelled sequence of statuses was exhausted before the loop ended. -/
  | pending
  deriving DecidableEq

/-- The retry loop of delete_and_consolidate (part_000 lines 139-161) as a
function of the statuses returned by the successive consolidate_deletes
calls.  Returns the list of sleep durations performed (in seconds; the
source sets wait_time = 5) together with how the loop ended.  On LOCK_FAIL
and on INCONSISTENT_COUNT_ERROR the source prints a message, sleeps
wait_time seconds and calls consolidate_deletes again; on any other
non-SUCCESS status it calls exit(-1) without sleeping. -/
def runConsolidateLoop : List ConsStatus → List ℕ × LoopOutcome
  | [] => ([], LoopOutcome.pending)
  | s :: rest =>
    match s with
    | ConsStatus.SUCCESS => ([], LoopOutcome.success)
    | ConsStatus.LOCK_FAIL => (5 :: (runConsolidateLoop rest).1, (runConsolidateLoop rest).2)
    | ConsStatus.INCONSISTENT_COUNT_ERROR =>
        (5 :: (runConsolidateLoop rest).1, (runConsolidateLoop rest).2)
    | ConsStatus.OTHER => ([], LoopOutcome.aborted)

/-- Observable actions of the background task spawned by the driver. -/
inductive TaskEvent where
  /-- index.lazy_delete(tag) -/
  | del (tag : ℕ)
  /-- index.consolidate_deletes(delete_params) -/
  | consolidate
  deriving DecidableEq

/-- Event trace of delete_and_consolidate (part_000 lines 134-139) for index
range [s, e): lazy_delete(1 + i) for each i in [s, e) in order, then the
call to consolidate_deletes. -/
def delete_and_consolidate_trace (s e : ℕ) : List TaskEvent :=
  ((List.range' s (e - s)).map fun i => TaskEvent.del (insertionTag i)) ++
    [TaskEvent.consolidate]

/-- The background task spawned by the loop iteration of
build_incremental_index at offset start, labels disabled (part_000 lines
296-302): spawned only when start ≥ active_window + consolidate_interval,
with index range [start - active_window - consolidate_interval,
start - active_window). -/
def driverDeleteTask (W C start : ℕ) : Option (List TaskEvent) :=
  if W + C ≤ start then
    some (delete_and_consolidate_trace (start - W - C) (start - W))
  else
    none

/-- The tag values lazy-deleted by the background task of the iteration at
offset start (empty when no task is spawned). -/
def taskDeletedTags (W C start : ℕ) : List ℕ :=
  match driverDeleteTask W C start with
  | some evs => evs.filterMap fun e =>
      match e with
      | TaskEvent.del t => some t
      | TaskEvent.consolidate => none
  | none => []

/-- A binary vector file as read by load_aligned_bin_part: the two header
words npts and dim, and the payload of element values (the file's byte size
is 2 * 4 + values.length * sizeof T, so the size check of line 44 passes
exactly when values.length = npts * dim). -/
structure BinFile (α : Type) where
  npts : ℕ
  dim : ℕ
  values : List α

/-- load_aligned_bin_part (part_000 lines 28-73): fail if the file size does
not match the header (line 44), fail if offset_points + points_to_read
exceeds npts (line 54), both before anything is written to the destination;
otherwise produce, for each of the points_to_read points, a row of
ROUND_UP dim 8 coordinates whose first dim entries are the file's values
for that point (line 69) and whose remaining entries are zeroed (line 70). -/
def load_aligned_bin_part {α : Type} [Zero α] (f : BinFile α)
    (offset_points points_to_read : ℕ) : Except String (List (List α)) :=
  if f.values.length ≠ f.npts * f.dim then
    Except.error errFileSize
  else if f.npts < offset_points + points_to_read then
    Except.error errNotEnoughPoints
  else
    Except.ok ((List.range points_to_read).map fun i =>
      (List.range (ROUND_UP f.dim 8)).map fun j =>
        if j < f.dim then f.values.getD ((offset_points + i) * f.dim + j) 0 else 0)

/-- Which of the two truthset layouts load_truthset decided on. -/
inductive TruthsetVariant where
  /-- npts * dim u32 ids followed by npts * dim f32 distances. -/
  | withDists
  /-- npts * dim u32 ids only. -/
  | idsOnly
  deriving DecidableEq

/-- load_truthset (utils.h lines 374-425) as a function of the header fields
and the actual file size in bytes.  Mirrors the source exactly: the type
tag starts at -1, is set to 1 if the size matches the ids-plus-distances
layout, then set to 2 if the size matches the ids-only layout (so the
ids-only assignment wins if both match), and -1 throws. -/
def load_truthset (npts dim actual_file_size : ℕ) : Except String TruthsetVariant :=
  let expected_with_dists := 2 * npts * dim * 4 + 2 * 4
  let expected_just_ids := npts * dim * 4 + 2 * 4
  let t1 : Int := if actual_file_size = expected_with_dists then 1 else -1
  let t2 : Int := if actual_file_size = expected_just_ids then 2 else t1
  if t2 = -1 then Except.error errFileSize
  else if t2 = 1 then Except.ok TruthsetVariant.withDists
  else Except.ok TruthsetVariant.idsOnly

noncomputable section

/-- Sum of squares of the entries of a vector, as accumulated into norms[p]
by prepare_base_for_inner_products (utils.h lines 766-770).  The source
calls this a norm but it is the squared Euclidean norm. -/
def sqNorm (v : List ℝ) : ℝ := (v.map fun x => x * x).sum

/-- The running maximum of the squared norms over all base vectors, starting
from 0 (utils.h lines 734 and 771-772). -/
def maxSqNorm (base : List (List ℝ)) : ℝ := (base.map sqNorm).foldl max 0

/-- max_norm as returned by prepare_base_for_inner_products: the square root
of the maximal squared norm (utils.h line 776). -/
def mipsMaxNorm (base : List (List ℝ)) : ℝ := Real.sqrt (maxSqNorm base)

/-- The augmented output vector for one input vector v (utils.h lines
785-793): each coordinate divided by M, with one appended coordinate equal
to sqrt (1 - sqNorm v / M^2), clamped to 0 when that quantity is not
positive. -/
def mipsAugment (M : ℝ) (v : List ℝ) : List ℝ :=
  (v.map fun x => x / M) ++
    [if 1 - sqNorm v / (M * M) ≤ 0 then 0 else Real.sqrt (1 - sqNorm v / (M * M))]

/-- prepare_base_for_inner_products (utils.h lines 726-799), idealized over
the reals: returns the augmented base vectors and the max_norm value that
the source returns. -/
def prepare_base_for_inner_products (base : List (List ℝ)) : List (List ℝ) × ℝ :=
  (base.map (mipsAugment (mipsMaxNorm base)), mipsMaxNorm base)

end



lemma upTags_zero : upTags 0 = ∅ := by
  simp [upTags]

lemma upTags_eq_batchTags (n : ℕ) : upTags n = batchTags 0 n := rfl

lemma upTags_union_batchTags (a b : ℕ) (h : a ≤ b) :
    upTags a ∪ batchTags a b = upTags b := by
  unfold upTags batchTags
  exact Finset.Ico_union_Ico_eq_Ico (by omega) (by omega)

/-- Closed form of the driver loop: starting the loop at offset start with
tags 1..start inserted and tags 1..(start - W - C) deleted, it ends with
tags 1..S inserted and 1..(S - W - C) deleted, where
S = start + C * ((N - start) / C) is the first loop offset beyond N - C. -/
lemma streamLoop_closed (N W C : ℕ) (hC : 0 < C) :
    ∀ fuel start, N + 1 ≤ fuel + start → (start = W ∨ W + C ≤ start) →
    streamLoop N W C fuel start ⟨upTags start, upTags (start - W - C)⟩ =
      ⟨upTags (start + C * ((N - start) / C)),
       upTags (start + C * ((N - start) / C) - W - C)⟩ := by
  intro fuel
  induction fuel with
  | zero =>
    intro start hfuel _
    have h0 : N - start = 0 := by omega
    simp [streamLoop, h0]
  | succ fuel ih =>
    intro start hfuel hinv
    by_cases hle : start + C ≤ N
    · have hW : W ≤ start := by omega
      have hdiv : (N - start) / C = (N - (start + C)) / C + 1 := by
        have h1 : N - start = (N - (start + C)) + C := by omega
        rw [h1, Nat.add_div_right _ hC]
      have hS : start + C + C * ((N - (start + C)) / C) = start + C * ((N - start) / C) := by
        rw [hdiv]; ring
      have hiter : streamIter N W C start ⟨upTags start, upTags (start - W - C)⟩ =
          ⟨upTags (start + C), upTags (start + C - W - C)⟩ := by
        unfold streamIter
        have hmin : min (start + C) N = start + C := by omega
        rcases hinv with h | h
        · subst h
          rw [if_neg (by omega)]
          simp only [hmin]
          congr 1
          · exact upTags_union_batchTags _ _ (by omega)
          · congr 1
            omega
        · rw [if_pos h]
          simp only [hmin]
          congr 1
          · exact upTags_union_batchTags _ _ (by omega)
          · have hd : start + C - W - C = start - W := by omega
            rw [hd]
            exact upTags_union_batchTags _ _ (by omega)
      rw [streamLoop, if_pos hle, hiter,
        ih (start + C) (by omega) (Or.inr (by omega)), hS]
    · have h0 : (N - start) / C = 0 := by
        apply Nat.div_eq_of_lt
        omega
      rw [streamLoop, if_neg hle]
      simp [h0]

lemma upTags_sdiff (d S : ℕ) :
    upTags S \ upTags d = Finset.Icc (d + 1) S := by
  ext x
  simp only [upTags, Finset.mem_sdiff, Finset.mem_Ico, Finset.mem_Icc]
  omega

/-- The successful run of the driver in closed form. -/
lemma build_ok (N W C : ℕ) (hC : 0 < C) (hwin : W + C ≤ N) (hint : N / 1000 ≤ C) :
    build_incremental_index N N W C =
      Except.ok
        { max_points := N
          capacity := W + 4 * C
          inserted := upTags (W + C * ((N - W) / C))
          deleted := upTags (W + C * ((N - W) / C) - W - C) } := by
  have hm : effectiveMaxPoints N N = N := by
    unfold effectiveMaxPoints
    split <;> rfl
  unfold build_incremental_index
  rw [hm, if_neg (by omega), if_neg (by omega), if_neg (by omega)]
  have hinit : (⟨batchTags 0 W, ∅⟩ : DriverState) = ⟨upTags W, upTags (W - W - C)⟩ := by
    rw [← upTags_eq_batchTags]
    have : W - W - C = 0 := by omega
    rw [this, upTags_zero]
  rw [hinit, streamLoop_closed N W C hC (N + 1) W (by omega) (Or.inl rfl)]

/-- The live tag set of a completed run in closed form. -/
lemma driverLiveTags_closed (N W C : ℕ) (hC : 0 < C) (hwin : W + C ≤ N) (hint : N / 1000 ≤ C) :
    driverLiveTags N W C =
      Finset.Icc (W + C * ((N - W) / C) - W - C + 1) (W + C * ((N - W) / C)) := by
  unfold driverLiveTags
  rw [build_ok N W C hC hwin hint]
  exact upTags_sdiff _ _

/-- C1 (amended): with labels disabled and the driver preconditions (and a
positive consolidate_interval so the loop terminates), the live tags after
the insert/delete loop are exactly the interval ending at
S = W + C * ((N - W) / C) of length W + C: the last delete batch stops at
tag S - W, so W + C tags stay live, not W as the spec claims.  In the
N=1000, W=200, C=50 scenario the live set is 751..1000 with 250 elements. -/
theorem C1_streaming_live_window (N W C : ℕ) (hC : 0 < C) (hwin : W + C ≤ N)
    (hint : N / 1000 ≤ C) :
    driverLiveTags N W C =
      Finset.Icc (W + C * ((N - W) / C) - W - C + 1) (W + C * ((N - W) / C)) ∧
    (driverLiveTags N W C).card = W + C := by
  have h := driverLiveTags_closed N W C hC hwin hint
  refine ⟨h, ?_⟩
  rw [h, Nat.card_Icc]
  have hm : 1 ≤ (N - W) / C := by
    rw [Nat.le_div_iff_mul_le hC]
    omega
  have : W + C ≤ W + C * ((N - W) / C) := by
    nlinarith
  omega

/-- Witness for C1 at the spec scenario N=1000, W=200, C=50. -/
theorem C1_streaming_live_window_witness :
    driverLiveTags 1000 200 50 = Finset.Icc 751 1000 ∧
    (driverLiveTags 1000 200 50).card = 250 := by
  have h := C1_streaming_live_window 1000 200 50 (by norm_num) (by norm_num) (by norm_num)
  norm_num at h
  exact h

/-- Counterexample to C1 as stated: in the N=1000, W=200, C=50 scenario the
live tag set is not 801..1000 (it is 751..1000). -/
theorem C1_streaming_live_window_cex :
    driverLiveTags 1000 200 50 ≠ Finset.Icc 801 1000 := by
  have h := driverLiveTags_closed 1000 200 50 (by norm_num) (by norm_num) (by norm_num)
  norm_num at h
  rw [h]
  intro hEq
  have h751 : (751 : ℕ) ∈ Finset.Icc 751 1000 := by
    simp
  rw [hEq] at h751
  simp [Finset.mem_Icc] at h751



lemma filterMap_del_map (l : List ℕ) :
    (List.filterMap
      (fun e =>
        match e with
        | TaskEvent.del t => some t
        | TaskEvent.consolidate => none)
      (l.map fun i => TaskEvent.del (insertionTag i))) = l.map insertionTag := by
  induction l with
  | nil => rfl
  | cons x l ih => simp only [List.map_cons, List.filterMap_cons, ih]

lemma taskDeletedTags_eq (W C start : ℕ) (h : W + C ≤ start) :
    taskDeletedTags W C start = (List.range' (start - W - C) C).map insertionTag := by
  unfold taskDeletedTags driverDeleteTask delete_and_consolidate_trace
  rw [if_pos h]
  have hc : start - W - (start - W - C) = C := by omega
  rw [hc]
  simp only [List.filterMap_append, filterMap_del_map, List.filterMap_cons, List.filterMap_nil,
    List.append_nil]

lemma mem_range'_map_insertionTag (s n t : ℕ) :
    t ∈ (List.range' s n).map insertionTag ↔ s + 1 ≤ t ∧ t ≤ s + n := by
  simp only [List.mem_map, List.mem_range'_1, insertionTag]
  constructor
  · rintro ⟨i, hi, rfl⟩
    omega
  · intro ht
    exact ⟨t - 1, by omega, by omega⟩

/-- Amended C2: the spawned task deletes the tags of the points with indices
in [start - W - C, start - W), whose tag values are 1 + index, i.e. exactly
the interval [start - W - C + 1, start - W + 1); the consolidate call comes
after all the lazy deletions. -/
theorem C2_delete_interval (W C start : ℕ) (h : W + C ≤ start) :
    driverDeleteTask W C start =
      some (((List.range' (start - W - C) C).map fun i => TaskEvent.del (insertionTag i)) ++
        [TaskEvent.consolidate]) ∧
    (∀ t, t ∈ taskDeletedTags W C start ↔ start - W - C + 1 ≤ t ∧ t ≤ start - W) ∧
    ∀ j, insertionTag j = 1 + j := by
  refine ⟨?_, ?_, fun j => rfl⟩
  · unfold driverDeleteTask delete_and_consolidate_trace
    rw [if_pos h]
    have hc : start - W - (start - W - C) = C := by omega
    rw [hc]
  · intro t
    rw [taskDeletedTags_eq W C start h, mem_range'_map_insertionTag]
    omega

/-- Witness for C2 at W=200, C=50, start=300: tag 60 is among the deleted
tags 51..100. -/
theorem C2_delete_interval_witness : (60 : ℕ) ∈ taskDeletedTags 200 50 300 := by
  have h := C2_delete_interval 200 50 300 (by norm_num)
  exact (h.2.1 60).mpr (by norm_num)

/-- Counterexample to C2 as stated: at W=200, C=50, start=250 the deleted
tag values are 1..50, not the claimed interval of tag values
[start - W - C, start - W) = 0..49. -/
theorem C2_delete_interval_cex :
    (taskDeletedTags 200 50 250).toFinset ≠ Finset.Ico 0 50 := by
  decide

/-- Amended C3: an INCONSISTENT_COUNT_ERROR report is not fatal; the driver
sleeps 5 seconds and calls consolidate_deletes again, exactly like
LOCK_FAIL; only an unrecognized status aborts the process. -/
theorem C3_inconsistent_retried (rest : List ConsStatus) :
    runConsolidateLoop (ConsStatus.INCONSISTENT_COUNT_ERROR :: rest) =
      (5 :: (runConsolidateLoop rest).1, (runConsolidateLoop rest).2) ∧
    runConsolidateLoop (ConsStatus.OTHER :: rest) = ([], LoopOutcome.aborted) := by
  exact ⟨rfl, rfl⟩

/-- Counterexample to C3 as stated: after an INCONSISTENT_COUNT_ERROR report
the driver sleeps 5 seconds and retries, and the run ends in success, not
in a process-level abort. -/
theorem C3_inconsistent_retried_cex :
    runConsolidateLoop
        [ConsStatus.INCONSISTENT_COUNT_ERROR, ConsStatus.SUCCESS] =
      ([5], LoopOutcome.success) ∧
    LoopOutcome.success ≠ LoopOutcome.aborted := by
  exact ⟨rfl, by decide⟩

/-- C4: on LOCK_FAIL the driver sleeps 5 seconds and retries
consolidate_deletes, and keeps doing so until a call returns SUCCESS (shown
for any number k of consecutive LOCK_FAIL reports); moreover every sleep the
retry loop ever performs lasts exactly 5 seconds, the only timeout in the
driver. -/
theorem C4_lockfail_retry (k : ℕ) (statuses : List ConsStatus) :
    runConsolidateLoop (List.replicate k ConsStatus.LOCK_FAIL ++ [ConsStatus.SUCCESS]) =
      (List.replicate k 5, LoopOutcome.success) ∧
    ∀ t ∈ (runConsolidateLoop statuses).1, t = 5 := by
  constructor
  · induction k with
    | zero => rfl
    | succ k ih =>
      simp only [List.replicate_succ, List.cons_append, runConsolidateLoop, List.append_eq, ih]
  · induction statuses with
    | nil => intro t ht; simp [runConsolidateLoop] at ht
    | cons s rest ih =>
      intro t ht
      cases s <;> simp only [runConsolidateLoop] at ht
      · simp at ht
      · rcases List.mem_cons.mp ht with h | h
        · exact h
        · exact ih t h
      · rcases List.mem_cons.mp ht with h | h
        · exact h
        · exact ih t h
      · simp at ht

/-- Witness for C4 with two LOCK_FAIL reports before SUCCESS. -/
theorem C4_lockfail_retry_witness :
    runConsolidateLoop (List.replicate 2 ConsStatus.LOCK_FAIL ++ [ConsStatus.SUCCESS]) =
      (List.replicate 2 5, LoopOutcome.success) :=
  (C4_lockfail_retry 2 []).1



/-- C5: after substituting max_points_to_insert := num_points when the given
value is 0, build_incremental_index proceeds to build the index iff
num_points is at least the effective maximum m, m is at least
active_window + consolidate_interval, and consolidate_interval is at least
m / 1000; when any of the three fails it raises a fatal error. -/
theorem C5_preconditions (n mpi W C : ℕ) :
    ((∃ r, build_incremental_index n mpi W C = Except.ok r) ↔
      (effectiveMaxPoints n mpi ≤ n ∧ W + C ≤ effectiveMaxPoints n mpi ∧
        effectiveMaxPoints n mpi / 1000 ≤ C)) ∧
    (¬ (effectiveMaxPoints n mpi ≤ n ∧ W + C ≤ effectiveMaxPoints n mpi ∧
        effectiveMaxPoints n mpi / 1000 ≤ C) →
      ∃ msg, build_incremental_index n mpi W C = Except.error msg) := by
  unfold build_incremental_index
  constructor
  · constructor
    · rintro ⟨r, hr⟩
      by_contra hcond
      dsimp only at hr
      split_ifs at hr
      all_goals first
        | exact Except.noConfusion hr
        | omega
    · intro hcond
      dsimp only
      rw [if_neg (by omega), if_neg (by omega), if_neg (by omega)]
      exact ⟨_, rfl⟩
  · intro hcond
    dsimp only
    split_ifs with h1 h2 h3
    · exact ⟨_, rfl⟩
    · exact ⟨_, rfl⟩
    · exact ⟨_, rfl⟩
    · exact absurd ⟨by omega, by omega, by omega⟩ hcond

/-- Witness for C5: with num_points = 1000 and max_points_to_insert = 0 the
substitution applies and all three preconditions hold. -/
theorem C5_preconditions_witness :
    ∃ r, build_incremental_index 1000 0 200 50 = Except.ok r := by
  exact (C5_preconditions 1000 0 200 50).1.mpr (by norm_num [effectiveMaxPoints])

/-- C6: every successful run of the driver constructs the Index with slot
capacity exactly active_window + 4 * consolidate_interval. -/
theorem C6_slot_capacity (n mpi W C : ℕ) (r : DriverRun)
    (h : build_incremental_index n mpi W C = Except.ok r) :
    r.capacity = W + 4 * C := by
  unfold build_incremental_index at h
  dsimp only at h
  split_ifs at h
  injection h with h
  rw [← h]

/-- Witness for C6 on the run with num_points = 2, W = 1, C = 1. -/
theorem C6_slot_capacity_witness :
    DriverRun.capacity
        { max_points := 2
          capacity := 1 + 4 * 1
          inserted := upTags (1 + 1 * ((2 - 1) / 1))
          deleted := upTags (1 + 1 * ((2 - 1) / 1) - 1 - 1) } = 1 + 4 * 1 :=
  C6_slot_capacity 2 2 1 1 _ (build_ok 2 1 1 (by norm_num) (by norm_num) (by norm_num))

lemma load_truthset_just (npts dim s : ℕ) (h : s = npts * dim * 4 + 2 * 4) :
    load_truthset npts dim s = Except.ok TruthsetVariant.idsOnly := by
  unfold load_truthset
  dsimp only
  rw [if_pos h]
  norm_num

lemma load_truthset_dists (npts dim s : ℕ) (h : s = 2 * npts * dim * 4 + 2 * 4)
    (hne : s ≠ npts * dim * 4 + 2 * 4) :
    load_truthset npts dim s = Except.ok TruthsetVariant.withDists := by
  unfold load_truthset
  dsimp only
  rw [if_neg hne, if_pos h]
  norm_num

lemma load_truthset_err (npts dim s : ℕ) (h1 : s ≠ npts * dim * 4 + 2 * 4)
    (h2 : s ≠ 2 * npts * dim * 4 + 2 * 4) :
    load_truthset npts dim s = Except.error errFileSize := by
  unfold load_truthset
  dsimp only
  rw [if_neg h1, if_neg h2]
  norm_num

/-- C9: load_truthset succeeds iff the total file size is
8 + npts * dim * 4 (ids only) or 8 + 2 * npts * dim * 4 (ids then f32
distances); the ids-only size always loads the ids-only variant and the
with-distances size loads the with-distances variant whenever npts * dim
is nonzero (when npts * dim = 0 the two sizes coincide and the code reads
no payload either way), so the total size determines the variant loaded. -/
theorem C9_truthset_size (npts dim s : ℕ) :
    ((∃ v, load_truthset npts dim s = Except.ok v) ↔
      s = npts * dim * 4 + 8 ∨ s = 2 * npts * dim * 4 + 8) ∧
    load_truthset npts dim (npts * dim * 4 + 8) = Except.ok TruthsetVariant.idsOnly ∧
    (npts * dim ≠ 0 →
      load_truthset npts dim (2 * npts * dim * 4 + 8) = Except.ok TruthsetVariant.withDists) := by
  refine ⟨⟨?_, ?_⟩, ?_, ?_⟩
  · rintro ⟨v, hv⟩
    by_cases h1 : s = npts * dim * 4 + 2 * 4
    · left
      omega
    · by_cases h2 : s = 2 * npts * dim * 4 + 2 * 4
      · right
        omega
      · rw [load_truthset_err npts dim s h1 h2] at hv
        exact Except.noConfusion hv
  · intro hs
    rcases hs with hs | hs
    · exact ⟨_, load_truthset_just npts dim s (by omega)⟩
    · by_cases h1 : s = npts * dim * 4 + 2 * 4
      · exact ⟨_, load_truthset_just npts dim s h1⟩
      · exact ⟨_, load_truthset_dists npts dim s (by omega) h1⟩
  · exact load_truthset_just npts dim _ (by omega)
  · intro hnd
    have hr : 2 * npts * dim * 4 = 2 * (npts * dim) * 4 := by ring
    refine load_truthset_dists npts dim _ (by omega) ?_
    intro hEq
    have hr2 : npts * dim * 4 = (npts * dim) * 4 := by ring
    omega

/-- Witness for C9: a 2 x 3 truthset of 56 bytes holds ids and distances. -/
theorem C9_truthset_size_witness :
    load_truthset 2 3 (2 * 2 * 3 * 4 + 8) = Except.ok TruthsetVariant.withDists :=
  (C9_truthset_size 2 3 (2 * 2 * 3 * 4 + 8)).2.2 (by norm_num)

/-- C10: when the file size check passes but
offset_points + points_to_read exceeds the npts recorded in the header,
load_aligned_bin_part fails with the not-enough-points error; the check
precedes every write to the destination buffer in the source, so nothing
is written. -/
theorem C10_range_check (f : BinFile ℤ) (off cnt : ℕ)
    (hsize : f.values.length = f.npts * f.dim) (hrange : f.npts < off + cnt) :
    load_aligned_bin_part f off cnt = Except.error errNotEnoughPoints := by
  unfold load_aligned_bin_part
  rw [if_neg (by omega), if_pos hrange]

/-- Witness for C10: a 2-point file with a request for points 1 and 2. -/
theorem C10_range_check_witness :
    load_aligned_bin_part (⟨2, 3, [1, 2, 3, 4, 5, 6]⟩ : BinFile ℤ) 1 2 =
      Except.error errNotEnoughPoints :=
  C10_range_check ⟨2, 3, [1, 2, 3, 4, 5, 6]⟩ 1 2 (by decide) (by norm_num)



lemma load_aligned_bin_part_ok {α : Type} [Zero α] (f : BinFile α) (off cnt : ℕ)
    (hsize : f.values.length = f.npts * f.dim) (hrange : off + cnt ≤ f.npts) :
    load_aligned_bin_part f off cnt =
      Except.ok ((List.range cnt).map fun i =>
        (List.range (ROUND_UP f.dim 8)).map fun j =>
          if j < f.dim then f.values.getD ((off + i) * f.dim + j) 0 else 0) := by
  unfold load_aligned_bin_part
  rw [if_neg (by omega), if_neg (by omega)]

lemma ROUND_UP_eight (d : ℕ) :
    ROUND_UP d 8 % 8 = 0 ∧ d ≤ ROUND_UP d 8 ∧ ROUND_UP d 8 < d + 8 := by
  unfold ROUND_UP
  split_ifs with h <;> omega

/-- C7: every point stored by load_aligned_bin_part has
aligned_dim = ROUND_UP dim 8 coordinates, where aligned_dim is the least
multiple of 8 that is at least dim; the first dim coordinates equal the
values recorded in the file for that point and the remaining
aligned_dim - dim padding coordinates are zero. -/
theorem C7_aligned_layout (f : BinFile ℤ) (off cnt : ℕ) (data : List (List ℤ))
    (h : load_aligned_bin_part f off cnt = Except.ok data) :
    (ROUND_UP f.dim 8 % 8 = 0 ∧ f.dim ≤ ROUND_UP f.dim 8 ∧ ROUND_UP f.dim 8 < f.dim + 8) ∧
    data.length = cnt ∧
    ∀ i, i < cnt →
      (data.getD i []).length = ROUND_UP f.dim 8 ∧
      (∀ j, j < f.dim →
        (data.getD i []).getD j 0 = f.values.getD ((off + i) * f.dim + j) 0) ∧
      (∀ j, f.dim ≤ j → j < ROUND_UP f.dim 8 → (data.getD i []).getD j 0 = 0) := by
  have hdata : data = (List.range cnt).map fun i =>
      (List.range (ROUND_UP f.dim 8)).map fun j =>
        if j < f.dim then f.values.getD ((off + i) * f.dim + j) 0 else 0 := by
    unfold load_aligned_bin_part at h
    split_ifs at h
    injection h with h
    exact h.symm
  subst hdata
  refine ⟨ROUND_UP_eight f.dim, by simp, ?_⟩
  intro i hi
  have hrow : (((List.range cnt).map fun i =>
      (List.range (ROUND_UP f.dim 8)).map fun j =>
        if j < f.dim then f.values.getD ((off + i) * f.dim + j) 0 else 0).getD i []) =
      (List.range (ROUND_UP f.dim 8)).map fun j =>
        if j < f.dim then f.values.getD ((off + i) * f.dim + j) 0 else 0 := by
    rw [List.getD_eq_getElem _ _ (by simpa using hi)]
    simp
  rw [hrow]
  refine ⟨by simp, ?_, ?_⟩
  · intro j hj
    have hj8 : j < ROUND_UP f.dim 8 := by
      have := ROUND_UP_eight f.dim
      omega
    rw [List.getD_eq_getElem _ _ (by simpa using hj8)]
    simp [hj]
  · intro j hj1 hj2
    rw [List.getD_eq_getElem _ _ (by simpa using hj2)]
    simp
    omega

/-- Witness for C7 on a 2-point file of dimension 3, loading the second
point: its row is the file values 4, 5, 6 padded with five zeros. -/
theorem C7_aligned_layout_witness :
    ((ROUND_UP 3 8 % 8 = 0 ∧ 3 ≤ ROUND_UP 3 8 ∧ ROUND_UP 3 8 < 3 + 8) ∧
      ([[(4 : ℤ), 5, 6, 0, 0, 0, 0, 0]] : List (List ℤ)).length = 1) := by
  have h := C7_aligned_layout ⟨2, 3, [1, 2, 3, 4, 5, 6]⟩ 1 1 [[4, 5, 6, 0, 0, 0, 0, 0]]
    (by rfl)
  exact ⟨h.1, h.2.1⟩



lemma sqNorm_nonneg (v : List ℝ) : 0 ≤ sqNorm v := by
  apply List.sum_nonneg
  intro x hx
  rcases List.mem_map.mp hx with ⟨y, _, rfl⟩
  exact mul_self_nonneg y

lemma sqNorm_append_single (u : List ℝ) (c : ℝ) :
    sqNorm (u ++ [c]) = sqNorm u + c * c := by
  simp [sqNorm]

lemma sqNorm_map_div (v : List ℝ) (M : ℝ) :
    sqNorm (v.map fun x => x / M) = sqNorm v / (M * M) := by
  induction v with
  | nil => simp [sqNorm]
  | cons x v ih =>
    simp only [List.map_cons, sqNorm, List.sum_cons] at ih ⊢
    rw [ih, div_mul_div_comm, div_add_div_same]

lemma le_foldl_max (l : List ℝ) (a : ℝ) : a ≤ l.foldl max a := by
  induction l generalizing a with
  | nil => simp
  | cons b l ih => exact le_trans (le_max_left a b) (ih (max a b))

lemma mem_le_foldl_max (l : List ℝ) (a x : ℝ) (hx : x ∈ l) : x ≤ l.foldl max a := by
  induction l generalizing a with
  | nil => cases hx
  | cons b l ih =>
    rcases List.mem_cons.mp hx with rfl | h
    · exact le_trans (le_max_right a x) (le_foldl_max l (max a x))
    · exact ih (max a b) h

lemma maxSqNorm_nonneg (base : List (List ℝ)) : 0 ≤ maxSqNorm base :=
  le_foldl_max _ 0

lemma sqNorm_le_maxSqNorm (base : List (List ℝ)) (v : List ℝ) (hv : v ∈ base) :
    sqNorm v ≤ maxSqNorm base :=
  mem_le_foldl_max _ 0 _ (List.mem_map_of_mem sqNorm hv)

lemma mipsMaxNorm_sq (base : List (List ℝ)) :
    mipsMaxNorm base * mipsMaxNorm base = maxSqNorm base :=
  Real.mul_self_sqrt (maxSqNorm_nonneg base)

/-- C8: with M the max norm over the base (positive as soon as some base
vector is nonzero), every scaled vector has squared norm at most 1, the
appended coordinate is sqrt (1 - sqNorm v / M^2), the output has one more
coordinate than the input, every augmented vector has unit (squared) norm,
and the function returns M. -/
theorem C8_mips_unit_norm (base : List (List ℝ)) (h : 0 < mipsMaxNorm base) :
    (prepare_base_for_inner_products base).2 = mipsMaxNorm base ∧
    (prepare_base_for_inner_products base).1 = base.map (mipsAugment (mipsMaxNorm base)) ∧
    ∀ v ∈ base,
      sqNorm (v.map fun x => x / mipsMaxNorm base) ≤ 1 ∧
      mipsAugment (mipsMaxNorm base) v =
        (v.map fun x => x / mipsMaxNorm base) ++
          [Real.sqrt (1 - sqNorm v / (mipsMaxNorm base * mipsMaxNorm base))] ∧
      (mipsAugment (mipsMaxNorm base) v).length = v.length + 1 ∧
      sqNorm (mipsAugment (mipsMaxNorm base) v) = 1 := by
  refine ⟨rfl, rfl, ?_⟩
  intro v hv
  set M := mipsMaxNorm base with hM
  have hMM : 0 < M * M := mul_pos h h
  have hle : sqNorm v ≤ M * M := by
    rw [mipsMaxNorm_sq base]
    exact sqNorm_le_maxSqNorm base v hv
  have hratio : sqNorm v / (M * M) ≤ 1 := (div_le_one hMM).mpr hle
  have hres : 0 ≤ 1 - sqNorm v / (M * M) := by linarith
  have hclamp : (if 1 - sqNorm v / (M * M) ≤ 0 then (0 : ℝ)
      else Real.sqrt (1 - sqNorm v / (M * M))) =
      Real.sqrt (1 - sqNorm v / (M * M)) := by
    split_ifs with hc
    · have h0 : 1 - sqNorm v / (M * M) = 0 := le_antisymm hc hres
      rw [h0, Real.sqrt_zero]
    · rfl
  have haug : mipsAugment M v =
      (v.map fun x => x / M) ++ [Real.sqrt (1 - sqNorm v / (M * M))] := by
    unfold mipsAugment
    rw [hclamp]
  refine ⟨?_, haug, ?_, ?_⟩
  · rw [sqNorm_map_div]
    exact hratio
  · rw [haug]
    simp
  · rw [haug, sqNorm_append_single, sqNorm_map_div,
      Real.mul_self_sqrt hres]
    ring

/-- Witness for C8 on the one-vector base [[3, 4]], whose max norm is 5. -/
theorem C8_mips_unit_norm_witness :
    (prepare_base_for_inner_products [[(3 : ℝ), 4]]).2 = mipsMaxNorm [[(3 : ℝ), 4]] ∧
    sqNorm (mipsAugment (mipsMaxNorm [[(3 : ℝ), 4]]) [(3 : ℝ), 4]) = 1 := by
  have hm : maxSqNorm [[(3 : ℝ), 4]] = 25 := by
    simp [maxSqNorm, sqNorm]
    norm_num
  have hpos : 0 < mipsMaxNorm [[(3 : ℝ), 4]] := by
    rw [mipsMaxNorm, hm]
    exact Real.sqrt_pos.mpr (by norm_num)
  have h := C8_mips_unit_norm [[(3 : ℝ), 4]] hpos
  exact ⟨h.1, (h.2.2 [(3 : ℝ), 4] (by simp)).2.2.2⟩

end DiskANN
